import Mathlib

/-!
Verification of the Cody VS Code extension's request-resilience layer
(`vscode-extension/src/config.ts` and the bundled `ApiClient`/`ApiCache`),
the file-watch reindex trigger and the bug-fix application logic of
`vscode-extension/src/extension.ts`, and the two `ConfigManager` variants.

JavaScript `Map` objects are modelled as association lists in insertion
order (a JS `Map` preserves insertion order; `set` on an existing key
updates in place, `delete` removes the key, `keys().next().value` is the
oldest key). Timestamps (`Date.now()`) are explicit `Nat` parameters.
-/

namespace Cody

/-! ## JS `Map` model (association list in insertion order) -/

/-- `map.get(k)`: the value stored at `k`, if present. -/
def mapGet {β : Type} (m : List (String × β)) (k : String) : Option β :=
  (m.find? (fun p => p.1 = k)).map Prod.snd

/-- `map.delete(k)`: remove the entry for `k` (keys of a JS `Map` are unique,
so removing every matching entry agrees with the source on all reachable states). -/
def mapDelete {β : Type} (m : List (String × β)) (k : String) : List (String × β) :=
  m.filter (fun p => p.1 ≠ k)

/-- `map.set(k, v)`: update in place when the key exists, otherwise append. -/
def mapSet {β : Type} (m : List (String × β)) (k : String) (v : β) : List (String × β) :=
  if m.any (fun p => p.1 = k) then
    m.map (fun p => if p.1 = k then (k, v) else p)
  else
    m ++ [(k, v)]

/-- The keys of a map, in insertion order. -/
def keysOf {β : Type} (m : List (String × β)) : List String :=
  m.map Prod.fst

/-! ## `ApiCache` (config.ts, class `ApiCache`) -/

/-- `interface CacheEntry<T> { data: T; timestamp: number; ttl: number }`. -/
structure CacheEntry (α : Type) where
  data : α
  timestamp : Nat
  ttl : Nat
  deriving Repr, DecidableEq

/-- `class ApiCache { private cache = new Map<string, CacheEntry<any>>(); ... }`. -/
structure ApiCache (α : Type) where
  entries : List (String × CacheEntry α)
  deriving Repr, DecidableEq

/-- `private readonly maxSize = 100`. -/
def cacheMaxSize : Nat := 100

/-- `private readonly defaultTTL = 30 * 60 * 1000`. -/
def defaultTTL : Nat := 30 * 60 * 1000

/-- The empty cache. -/
def ApiCache.empty {α : Type} : ApiCache α := ⟨[]⟩

/-- `ApiCache.get(key)` at current time `now`: returns the value together with
the cache after the call (an expired entry is deleted by the call). -/
def ApiCache.get {α : Type} (c : ApiCache α) (key : String) (now : Nat) :
    Option α × ApiCache α :=
  match mapGet c.entries key with
  | none => (none, c)
  | some entry =>
    if entry.ttl < now - entry.timestamp then
      (none, ⟨mapDelete c.entries key⟩)
    else
      (some entry.data, c)

/-- `ApiCache.set(key, data, ttl = defaultTTL)` at current time `now`.
The eviction guard is the source's `if (firstKey)`: a JS truthiness test,
false for `undefined` (empty map) and also for the empty-string key. -/
def ApiCache.set {α : Type} (c : ApiCache α) (key : String) (data : α)
    (now : Nat) (ttl : Nat := defaultTTL) : ApiCache α :=
  let afterEvict :=
    if cacheMaxSize ≤ c.entries.length then
      match (keysOf c.entries).head? with
      | some firstKey => if firstKey = "" then c.entries else mapDelete c.entries firstKey
      | none => c.entries
    else c.entries
  ⟨mapSet afterEvict key ⟨data, now, ttl⟩⟩

/-- `ApiCache.clear()`. -/
def ApiCache.clear {α : Type} (_ : ApiCache α) : ApiCache α := ⟨[]⟩

/-- One public cache operation, with the `Date.now()` value at which it runs. -/
inductive CacheOp (α : Type) where
  | get (key : String) (now : Nat)
  | set (key : String) (data : α) (now : Nat) (ttl : Nat)
  | clear
  deriving Repr

/-- Apply one operation to the cache (the result of `get` is discarded,
only its state effect is kept). -/
def CacheOp.apply {α : Type} (c : ApiCache α) : CacheOp α → ApiCache α
  | .get key now => (c.get key now).2
  | .set key data now ttl => c.set key data now ttl
  | .clear => c.clear

/-- Run a sequence of cache operations from a starting cache. -/
def runCacheOps {α : Type} (c : ApiCache α) (ops : List (CacheOp α)) : ApiCache α :=
  ops.foldl CacheOp.apply c

/-- The key an operation inserts, if it is a `set`. -/
def CacheOp.setKey {α : Type} : CacheOp α → Option String
  | .set key _ _ _ => some key
  | _ => none

/-! ## Request outcomes and errors (config.ts, `ApiResponse`, axios errors) -/

/-- `interface ApiResponse<T> { success: boolean; data?: T; error?: string }`. -/
structure ApiResponse (α : Type) where
  success : Bool
  data : Option α := none
  error : Option String := none
  deriving Repr, DecidableEq

/-- The `error.response` object of an axios error: HTTP status, status text,
and the optional `response.data.detail` used by `getErrorMessage`. -/
structure HttpResp where
  status : Nat
  statusText : String
  detail : Option String
  deriving Repr, DecidableEq

/-- An axios-style error value as inspected by the client: `error.response`
is present when the server answered with an error status, `error.request`
is set when the request was sent but no response arrived. -/
structure JsError where
  response : Option HttpResp
  request : Bool
  message : String
  deriving Repr, DecidableEq

/-- JS `a || b` on strings: the empty string is falsy. -/
def orElseStr (a : Option String) (b : String) : String :=
  match a with
  | some s => if s = "" then b else s
  | none => b

/-- `ApiClient.isNonRetryableError`: client errors `400 <= status < 500`
other than `429` are not retried. -/
def isNonRetryableError (e : JsError) : Bool :=
  match e.response with
  | some r => decide (400 ≤ r.status) && decide (r.status < 500) && decide (r.status ≠ 429)
  | none => false

/-- `ApiClient.getErrorMessage`. -/
def getErrorMessage (e : JsError) : String :=
  match e.response with
  | some r => "HTTP " ++ toString r.status ++ ": " ++ orElseStr r.detail r.statusText
  | none =>
    if e.request then "Network error: No response received from server"
    else "Request error: " ++ e.message

/-- The body the backend answered with: either a structured envelope with an
explicit `success` field, or a raw payload. -/
inductive BackendResponse (α : Type) where
  | envelope (success : Bool) (data : Option α) (error : Option String)
  | raw (data : α)
  deriving Repr, DecidableEq

/-- The response interpretation inside `executeRequest`: an envelope carrying
`success` is unwrapped (a failed envelope defaults its message to
`'Backend request failed'`), anything else is returned as successful data. -/
def interpretResponse {α : Type} : BackendResponse α → ApiResponse α
  | .envelope true d _ => ⟨true, d, none⟩
  | .envelope false _ e => ⟨false, none, some (orElseStr e "Backend request failed")⟩
  | .raw d => ⟨true, some d, none⟩

/-- The result of one `requestFn()` invocation: a response or a thrown error. -/
inductive Attempt (α : Type) where
  | ok (resp : BackendResponse α)
  | err (e : JsError)
  deriving Repr

/-- What one run of `executeRequest` did: its returned outcome, how many times
`requestFn` was invoked, and the backoff delays slept between attempts. -/
structure ExecTrace (α : Type) where
  outcome : ApiResponse α
  invocations : Nat
  delays : List Nat
  deriving Repr, DecidableEq

/-- The retry loop of `executeRequest` from loop counter `attempt`, with
`remaining` further iterations allowed after this one
(`remaining = maxRetries - attempt`). `attempts i` is what the `i`-th
invocation of `requestFn` does. -/
def execFrom {α : Type} (attempts : Nat → Attempt α) : Nat → Nat → ExecTrace α
  | attempt, 0 =>
    match attempts attempt with
    | .ok resp => ⟨interpretResponse resp, 1, []⟩
    | .err e => ⟨⟨false, none, some (getErrorMessage e)⟩, 1, []⟩
  | attempt, remaining + 1 =>
    match attempts attempt with
    | .ok resp => ⟨interpretResponse resp, 1, []⟩
    | .err e =>
      if isNonRetryableError e then
        ⟨⟨false, none, some (getErrorMessage e)⟩, 1, []⟩
      else
        let d := min (1000 * 2 ^ (attempt - 1)) 10000
        let rest := execFrom attempts (attempt + 1) remaining
        ⟨rest.outcome, rest.invocations + 1, d :: rest.delays⟩

/-- `ApiClient.executeRequest` with `config.maxRetries = maxRetries`:
`for (let attempt = 1; attempt <= maxRetries; attempt++) ...`.
(With `maxRetries = 0` the source's loop body never runs and the final
`getErrorMessage(undefined)` would fault; the configuration default makes
`maxRetries >= 1`, so that case is modelled as an empty failure.) -/
def executeRequest {α : Type} (maxRetries : Nat) (attempts : Nat → Attempt α) :
    ExecTrace α :=
  match maxRetries with
  | 0 => ⟨⟨false, none, none⟩, 0, []⟩
  | m + 1 => execFrom attempts 1 m

/-! ## Configuration (`ConfigManager.loadConfiguration`, both variants) -/

/-- `interface CodyConfiguration`. -/
structure CodyConfiguration where
  backendUrl : String
  maxRetries : Int
  requestTimeout : Int
  debugMode : Bool
  deriving Repr, DecidableEq

/-- The raw values returned by `vscode.workspace.getConfiguration('cody').get`
(`none` models an unset key). -/
structure RawConfig where
  backendUrl : Option String
  maxRetries : Option Int
  requestTimeout : Option Int
  debugMode : Option Bool
  deriving Repr, DecidableEq

/-- JS `a || b` on numbers: `0` is falsy. -/
def orElseInt (a : Option Int) (b : Int) : Int :=
  match a with
  | some n => if n = 0 then b else n
  | none => b

/-- JS `a || b` on booleans. -/
def orElseBool (a : Option Bool) (b : Bool) : Bool :=
  match a with
  | some v => v || b
  | none => b

/-- `backendUrl.replace(/\/$/, '')`: remove one trailing slash if present. -/
def stripTrailingSlash (s : String) : String :=
  if s.toList.getLast? = some '/' then String.mk s.toList.dropLast else s

namespace ConfigTs

/-- `ConfigManager.loadConfiguration` of `vscode-extension/src/config.ts`:
falsy-defaulting only, no clamping, no trailing-slash stripping. -/
def loadConfiguration (raw : RawConfig) : CodyConfiguration :=
  { backendUrl := orElseStr raw.backendUrl "http://localhost:8000"
    maxRetries := orElseInt raw.maxRetries 3
    requestTimeout := orElseInt raw.requestTimeout 30000
    debugMode := orElseBool raw.debugMode false }

end ConfigTs

namespace ConfigV2

/-- `ConfigManager.loadConfiguration` of the second `ConfigManager` variant in
the repository: clamps `maxRetries` to `[1,5]` and `requestTimeout` to
`[5000,60000]` and strips a trailing slash from `backendUrl`. -/
def loadConfiguration (raw : RawConfig) : CodyConfiguration :=
  let backendUrl := orElseStr raw.backendUrl "http://localhost:8000"
  let maxRetries := max 1 (min 5 (orElseInt raw.maxRetries 3))
  let requestTimeout := max 5000 (min 60000 (orElseInt raw.requestTimeout 30000))
  let debugMode := orElseBool raw.debugMode false
  { backendUrl := stripTrailingSlash backendUrl
    maxRetries := maxRetries
    requestTimeout := requestTimeout
    debugMode := debugMode }

end ConfigV2

/-! ## `ApiClient.makeRequest`: interleaved semantics

`makeRequest` is an `async` function; under the single-threaded JS event
loop it runs atomically between its `await` points. Its suspension points
are (1) `await checkBackendConnection()` and (2) `await requestPromise`
(and, for a deduplicated caller, awaiting the other call's promise). A
pending call is therefore a small state machine; a scheduler interleaves
the atomic segments of concurrently pending calls. `executeRequest` is
abstracted to its eventual result per task: launching it (which invokes
`requestFn` synchronously up to its first `await`) is counted in
`execStarts`, one per network attempt sequence. -/

/-- The static data of one `makeRequest` call: its arguments, what the
connectivity probe will answer, and what its own `executeRequest` run would
return if launched. -/
structure TaskSpec (α : Type) where
  operation : String
  cacheKey : Option String
  cacheTTL : Option Nat
  probeOk : Bool
  execResult : ApiResponse α
  deriving Repr

/-- `` `${operation}-${cacheKey || 'no-cache'}` `` (the empty-string cache key
is falsy, like an absent one). -/
def requestKeyOf {α : Type} (t : TaskSpec α) : String :=
  t.operation ++ "-" ++
    (match t.cacheKey with
     | some ck => if ck = "" then "no-cache" else ck
     | none => "no-cache")

/-- Where one pending `makeRequest` call stands:
`start` — before its first synchronous segment (cache check, dedup check);
`probing` — suspended at `await checkBackendConnection()`;
`executing` — suspended at `await requestPromise` after registering in the
queue; `waiting owner` — deduplicated, awaiting task `owner`'s promise;
`done r` — returned `r`. -/
inductive TaskPhase (α : Type) where
  | start
  | probing
  | executing
  | waiting (owner : Nat)
  | done (r : ApiResponse α)
  deriving Repr, DecidableEq

/-- Shared state: the `ApiCache`, the `requestQueue` (key ↦ owning task
index, standing in for the stored promise), each task's phase, and the
number of `executeRequest` launches so far. -/
structure OrchState (α : Type) where
  cache : ApiCache (ApiResponse α)
  queue : List (String × Nat)
  phases : List (TaskPhase α)
  execStarts : Nat
  deriving Repr

/-- Run one atomic segment of task `i` (a no-op if `i` is done, out of
range, or waiting on a promise that has not settled). `backendUrl` is the
configured backend URL, `now` the clock during the run. -/
def orchStep {α : Type} (specs : List (TaskSpec α)) (backendUrl : String)
    (now : Nat) (s : OrchState α) (i : Nat) : OrchState α :=
  match specs[i]?, s.phases[i]? with
  | some t, some ph =>
    match ph with
    | .start =>
      -- cache check, then dedup check: one synchronous segment
      let checked : Option (ApiResponse α) × ApiCache (ApiResponse α) :=
        match t.cacheKey with
        | some ck => if ck = "" then (none, s.cache) else s.cache.get ck now
        | none => (none, s.cache)
      match checked with
      | (some cached, cache') =>
        { s with cache := cache', phases := s.phases.set i (.done cached) }
      | (none, cache') =>
        match mapGet s.queue (requestKeyOf t) with
        | some owner => { s with cache := cache', phases := s.phases.set i (.waiting owner) }
        | none => { s with cache := cache', phases := s.phases.set i .probing }
    | .probing =>
      if t.probeOk then
        -- executeRequest is launched and registered in the same segment
        { s with
          queue := mapSet s.queue (requestKeyOf t) i
          phases := s.phases.set i .executing
          execStarts := s.execStarts + 1 }
      else
        { s with phases := s.phases.set i (.done
            ⟨false, none, some ("Cannot connect to Cody backend at " ++ backendUrl ++
              ". Please ensure the backend is running.")⟩) }
    | .executing =>
      -- `try { result = await requestPromise; if (result.success && cacheKey)
      -- cache.set(...) } finally { requestQueue.delete(requestKey) }`
      let r := t.execResult
      let cache' :=
        match t.cacheKey with
        | some ck =>
          if r.success && ck ≠ "" then s.cache.set ck r now (t.cacheTTL.getD defaultTTL)
          else s.cache
        | none => s.cache
      { s with
        cache := cache'
        queue := mapDelete s.queue (requestKeyOf t)
        phases := s.phases.set i (.done r) }
    | .waiting owner =>
      match s.phases[owner]? with
      | some (.done r) => { s with phases := s.phases.set i (.done r) }
      | _ => s
    | .done _ => s
  | _, _ => s

/-- The initial state for a family of pending calls: empty cache, empty
request queue, every task at `start`. -/
def orchInit {α : Type} (specs : List (TaskSpec α)) : OrchState α :=
  ⟨ApiCache.empty, [], specs.map (fun _ => .start), 0⟩

/-- Run a schedule (a list of task indices, each naming whose atomic segment
runs next) from the initial state. -/
def orchRun {α : Type} (specs : List (TaskSpec α)) (backendUrl : String)
    (now : Nat) (sched : List Nat) : OrchState α :=
  sched.foldl (orchStep specs backendUrl now) (orchInit specs)

/-! ## Code-edit paths (`CodyChatProvider.applyCodeEdits` and the
backend extractor) -/

/-- A file-system path: an absolute flag plus its segments. -/
structure FsPath where
  absolute : Bool
  segs : List String
  deriving Repr, DecidableEq

/-- `path.resolve` segment processing: walk the segments, `..` pops the last
accumulated segment, `.` and empty segments are dropped. -/
def resolveSegs (acc : List String) : List String → List String
  | [] => acc
  | s :: rest =>
    if s = ".." then resolveSegs acc.dropLast rest
    else if s = "." ∨ s = "" then resolveSegs acc rest
    else resolveSegs (acc ++ [s]) rest

/-- The file targeted by `applyCodeEdits` for a given `edit.file`
(`vscode-extension/src/extension.ts`):
`path.isAbsolute(edit.file) ? edit.file : path.resolve(workspaceRoot, edit.file)`,
as absolute segments. -/
def editTargetOf (workspaceRoot : List String) (file : FsPath) : List String :=
  if file.absolute then resolveSegs [] file.segs
  else resolveSegs workspaceRoot file.segs

/-- Modelled from the spec: the backend Code-Edit Extractor is not part of
the repository sources here (only its client-side consumer
`applyCodeEdits` is), and §4.4 requires it to "resolve the tagged path"
and "reject paths containing parent-directory traversal segments by
normalizing them away", yielding a workspace-relative path. The model
drops every `..` (and `.`/empty) segment of the tagged path and forgets
any absolute marker, leaving a relative, traversal-free path. -/
def normalizeTaggedPath (tagged : FsPath) : FsPath :=
  ⟨false, tagged.segs.filter (fun s => s ≠ ".." && s ≠ "." && s ≠ "")⟩

/-! ## File-watch reindex trigger (`startFileWatching`) -/

/-- The extension allow-list of the watcher's
`/\.(js|ts|py|java|cpp|c|h|go|rs|php|rb|swift|kt)$/i` test. -/
def codeExtensions : List String :=
  ["js", "ts", "py", "java", "cpp", "c", "h", "go", "rs", "php", "rb", "swift", "kt"]

/-- ASCII lowercasing of one character (what the regex's `i` flag amounts to
on the ASCII extensions and paths involved). -/
def charToLower (c : Char) : Char :=
  if 'A' ≤ c && c ≤ 'Z' then Char.ofNat (c.toNat + 32) else c

/-- `isCodeFile`: the path matches the case-insensitive extension regex
`/\.(js|ts|py|java|cpp|c|h|go|rs|php|rb|swift|kt)$/i`. -/
def isCodeFile (p : String) : Bool :=
  codeExtensions.any (fun e => ('.' :: e.toList).isSuffixOf (p.toList.map charToLower))

/-- `const maxChangesBeforeReindex = 5`. -/
def maxChangesBeforeReindex : Nat := 5

/-- The watcher's mutable state: the accumulated `changeCount`, whether a
debounce timer is pending, the `isIndexing` flag, and how many reindex
calls have been issued. -/
structure WatchState where
  changeCount : Nat
  timerPending : Bool
  isIndexing : Bool
  reindexCalls : Nat
  deriving Repr, DecidableEq

/-- Watcher inputs: a chokidar file event for a path, or the debounce timer
firing after 5 s of quiescence (each new event replaces the pending
timer, so at most the last-armed timer fires). -/
inductive WatchEvent where
  | file (path : String)
  | timerFire
  deriving Repr

/-- One step of the `fileWatcher.on('all', ...)` handler / debounce callback. -/
def watchStep (s : WatchState) : WatchEvent → WatchState
  | .file p =>
    if isCodeFile p then
      { s with changeCount := s.changeCount + 1, timerPending := true }
    else s
  | .timerFire =>
    if s.timerPending then
      if !s.isIndexing && maxChangesBeforeReindex ≤ s.changeCount then
        { s with changeCount := 0, timerPending := false, reindexCalls := s.reindexCalls + 1 }
      else { s with timerPending := false }
    else s

/-- Run the watcher over a list of events. -/
def watchRun (s : WatchState) (events : List WatchEvent) : WatchState :=
  events.foldl watchStep s

/-- The watcher's initial state. -/
def watchInit : WatchState := ⟨0, false, false, 0⟩

/-! ## `applyBugFix` (`vscode-extension/src/extension.ts`) -/

/-- The active editor: its document text and the current selection,
as character offsets. -/
structure Editor where
  doc : List Char
  selStart : Nat
  selEnd : Nat
  deriving Repr, DecidableEq

/-- `editor.document.getText(selection)`. -/
def Editor.selectedText (e : Editor) : List Char :=
  (e.doc.drop e.selStart).take (e.selEnd - e.selStart)

/-- The messages `applyBugFix` can show. -/
inductive FixMessage where
  | info (msg : String)
  | warning (msg : String)
  | none
  deriving Repr, DecidableEq

/-- `applyBugFix(originalCode, fixedCode)`: replace the selection by
`fixedCode` only when the selected text still equals `originalCode`;
otherwise leave the document unchanged and show a warning. -/
def applyBugFix (editor : Option Editor) (originalCode fixedCode : List Char) :
    Option Editor × FixMessage :=
  match editor with
  | .none => (.none, .none)
  | some e =>
    if e.selectedText = originalCode then
      (some { e with
          doc := e.doc.take e.selStart ++ fixedCode ++ e.doc.drop e.selEnd },
        .info "Bug fix applied successfully!")
    else
      (some e, .warning "Selected code has changed. Please reselect and try again.")

/-! ## Concrete instances and invariants used by the theorems -/

/-- The invariant maintained by every cache reachable from empty through
operations whose `set` keys are non-empty: the size bound and the
non-emptiness of every stored key. -/
def CacheInv {α : Type} (c : ApiCache α) : Prop :=
  c.entries.length ≤ cacheMaxSize ∧ ∀ k ∈ keysOf c.entries, k ≠ ""

/-- 101 `set` operations whose first key is the empty string (falsy in the
source's `if (firstKey)` eviction guard) and whose other 100 keys are the
decimal numerals `0`–`99`. -/
def overflowOps : List (CacheOp Nat) :=
  .set "" 0 0 1000 :: (List.range cacheMaxSize).map (fun i => .set (Nat.repr i) 0 0 1000)

/-- A short operation sequence with non-empty keys. -/
def demoOps : List (CacheOp Nat) :=
  [.set "a" 1 0 50, .get "a" 10, .set "b" 2 10 50, .clear, .set "c" 3 20 50]

/-- The decimal numerals `1`–`100`: together with `"0"` in front, 101
pairwise-distinct non-empty keys. -/
def demoRest : List String :=
  (List.range cacheMaxSize).map (fun i => Nat.repr (i + 1))

/-- A raw configuration exhibiting that `vscode-extension/src/config.ts`'s
`loadConfiguration` performs no clamping and no slash stripping. -/
def rawOutOfRange : RawConfig := ⟨some "http://x/", some 10, some 70000, some false⟩

/-- A `makeRequest` call with operation `op` and cache key `k` whose own
network attempt sequence would succeed with data 7. -/
def raceA : TaskSpec Nat := ⟨"op", some "k", none, true, ⟨true, some 7, none⟩⟩

/-- A `makeRequest` call with the same operation `op` and the same cache key
`k` whose own network attempt sequence would fail with a 503 message. -/
def raceB : TaskSpec Nat :=
  ⟨"op", some "k", none, true, ⟨false, none, some "HTTP 503: Service Unavailable"⟩⟩

/-! ## Helper lemmas -/

theorem mapGet_mapDelete_self {β : Type} (m : List (String × β)) (k : String) :
    mapGet (mapDelete m k) k = none := by
  induction m with
  | nil => rfl
  | cons p rest ih =>
    by_cases h : p.1 = k
    · have hstep : mapDelete (p :: rest) k = mapDelete rest k := by
        simp [mapDelete, List.filter_cons, h]
      rw [hstep]
      exact ih
    · have hstep : mapDelete (p :: rest) k = p :: mapDelete rest k := by
        simp [mapDelete, List.filter_cons, h]
      rw [hstep, mapGet, List.find?_cons]
      have hd : (decide (p.1 = k)) = false := by simp [h]
      rw [hd]
      exact ih

theorem mapGet_eq_none_of_not_mem {β : Type} (m : List (String × β)) (k : String)
    (h : k ∉ keysOf m) : mapGet m k = none := by
  induction m with
  | nil => rfl
  | cons p rest ih =>
    simp only [keysOf, List.map_cons, List.mem_cons, not_or] at h
    have hpk : ¬ p.1 = k := fun e => h.1 e.symm
    have ih' := ih (by simpa [keysOf] using h.2)
    simp only [mapGet, List.find?_cons] at ih' ⊢
    simpa [hpk] using ih'

theorem resolveSegs_clean (segs : List String) :
    ∀ acc, (∀ s ∈ segs, s ≠ ".." ∧ s ≠ "." ∧ s ≠ "") →
      resolveSegs acc segs = acc ++ segs := by
  induction segs with
  | nil => intro acc _; simp [resolveSegs]
  | cons s rest ih =>
    intro acc h
    have hs := h s (by simp)
    rw [resolveSegs, if_neg hs.1, if_neg (by
      rintro (h1 | h2)
      · exact hs.2.1 h1
      · exact hs.2.2 h2)]
    rw [ih (acc ++ [s]) (fun t ht => h t (by simp [ht]))]
    simp

theorem delays_shift (a k : Nat) (ha : 1 ≤ a) :
    (List.range (k + 1)).map (fun n => min (1000 * 2 ^ (a - 1 + n)) 10000) =
      min (1000 * 2 ^ (a - 1)) 10000 ::
        (List.range k).map (fun n => min (1000 * 2 ^ (a + 1 - 1 + n)) 10000) := by
  rw [List.range_succ_eq_map, List.map_cons, List.map_map]
  refine congrArg₂ _ (by simp) ?_
  have hfun : (fun n => min (1000 * 2 ^ (a - 1 + n)) 10000) ∘ Nat.succ =
      (fun n => min (1000 * 2 ^ (a + 1 - 1 + n)) 10000) := by
    funext n
    have hx : a - 1 + Nat.succ n = a + 1 - 1 + n := by omega
    simp [Function.comp, hx]
  rw [hfun]

theorem execFrom_all_retryable {α : Type} (attempts : Nat → Attempt α) :
    ∀ (r a : Nat), 1 ≤ a →
      (∀ i, a ≤ i → i ≤ a + r → ∃ u, attempts i = .err u ∧ isNonRetryableError u = false) →
      ∃ e, attempts (a + r) = .err e ∧
        execFrom attempts a r =
          ⟨⟨false, none, some (getErrorMessage e)⟩, r + 1,
            (List.range r).map (fun n => min (1000 * 2 ^ (a - 1 + n)) 10000)⟩ := by
  intro r
  induction r with
  | zero =>
    intro a ha h
    obtain ⟨e, he, _⟩ := h a (le_refl a) (by omega)
    exact ⟨e, by simpa using he, by simp [execFrom, he]⟩
  | succ r ih =>
    intro a ha h
    obtain ⟨e, he, hre⟩ := h a (le_refl a) (by omega)
    obtain ⟨e', he', hrun⟩ := ih (a + 1) (by omega)
      (fun i h1 h2 => h i (by omega) (by omega))
    refine ⟨e', by rw [show a + (r + 1) = a + 1 + r from by omega]; exact he', ?_⟩
    simp only [execFrom, he, hre, Bool.false_eq_true, if_false]
    rw [hrun, delays_shift a r ha]

theorem execFrom_stops_nonretryable {α : Type} (attempts : Nat → Attempt α) :
    ∀ (r a j : Nat) (e : JsError), 1 ≤ a → a ≤ j → j ≤ a + r →
      (∀ i, a ≤ i → i < j → ∃ u, attempts i = .err u ∧ isNonRetryableError u = false) →
      attempts j = .err e → isNonRetryableError e = true →
      execFrom attempts a r =
        ⟨⟨false, none, some (getErrorMessage e)⟩, j - a + 1,
          (List.range (j - a)).map (fun n => min (1000 * 2 ^ (a - 1 + n)) 10000)⟩ := by
  intro r
  induction r with
  | zero =>
    intro a j e _ haj hja _ hj _
    have hj' : j = a := by omega
    subst hj'
    simp [execFrom, hj]
  | succ r ih =>
    intro a j e ha haj hja h hj hnr
    rcases Nat.eq_or_lt_of_le haj with heq | hlt
    · subst heq
      simp [execFrom, hj, hnr]
    · obtain ⟨u, hu, hru⟩ := h a (le_refl a) hlt
      have hrun := ih (a + 1) j e (by omega) (by omega) (by omega)
        (fun i h1 h2 => h i (by omega) h2) hj hnr
      simp only [execFrom, hu, hru, Bool.false_eq_true, if_false]
      rw [hrun]
      have hd : j - a = (j - (a + 1)) + 1 := by omega
      rw [hd, delays_shift a (j - (a + 1)) ha]

/-! ## Claim C2: retry classification and backoff -/

/-- Claim C2: an attempt failing with an HTTP status in `[400,500)` other
than 429 stops the loop at once — if all attempts before `j` failed
retryably and attempt `j` fails non-retryably, exactly `j` invocations of
`requestFn` happen (zero further retries past `j`) and the failure is
surfaced; when every attempt fails retryably (network errors, 429, 5xx,
timeouts), exactly `maxRetries` invocations happen, and the delay slept
before the `n`-th retry is `min(1000 * 2^(n-1), 10000)` ms (the delays
list holds `min(1000 * 2^n, 10000)` at 0-based index `n`). The
non-retryable classification is exactly "carries an HTTP status in
`[400,500)` other than 429". -/
theorem C2_retry_classification {α : Type} (maxRetries : Nat) (attempts : Nat → Attempt α)
    (hmr : 1 ≤ maxRetries) :
    (∀ j e, 1 ≤ j → j ≤ maxRetries →
      (∀ i, 1 ≤ i → i < j → ∃ u, attempts i = .err u ∧ isNonRetryableError u = false) →
      attempts j = .err e → isNonRetryableError e = true →
      executeRequest maxRetries attempts =
        ⟨⟨false, none, some (getErrorMessage e)⟩, j,
          (List.range (j - 1)).map (fun n => min (1000 * 2 ^ n) 10000)⟩) ∧
    ((∀ i, 1 ≤ i → i ≤ maxRetries → ∃ u, attempts i = .err u ∧ isNonRetryableError u = false) →
      ∃ e, attempts maxRetries = .err e ∧
        executeRequest maxRetries attempts =
          ⟨⟨false, none, some (getErrorMessage e)⟩, maxRetries,
            (List.range (maxRetries - 1)).map (fun n => min (1000 * 2 ^ n) 10000)⟩) ∧
    (∀ e, isNonRetryableError e = true ↔
      ∃ r, e.response = some r ∧ 400 ≤ r.status ∧ r.status < 500 ∧ r.status ≠ 429) := by
  obtain ⟨m, rfl⟩ : ∃ m, maxRetries = m + 1 := ⟨maxRetries - 1, by omega⟩
  refine ⟨?_, ?_, ?_⟩
  · intro j e h1j hjm h hj hnr
    have := execFrom_stops_nonretryable attempts m 1 j e (le_refl 1) h1j (by omega) h hj hnr
    rw [show executeRequest (m + 1) attempts = execFrom attempts 1 m from rfl, this]
    have hfun : (fun n => min (1000 * 2 ^ (1 - 1 + n)) 10000) =
        (fun n => min (1000 * 2 ^ n) 10000) := by
      funext n; simp
    rw [hfun, show j - 1 + 1 = j from by omega]
  · intro h
    obtain ⟨e, he, hrun⟩ := execFrom_all_retryable attempts m 1 (le_refl 1)
      (fun i h1 h2 => h i h1 (by omega))
    refine ⟨e, by rw [show m + 1 = 1 + m from by omega]; exact he, ?_⟩
    rw [show executeRequest (m + 1) attempts = execFrom attempts 1 m from rfl, hrun]
    have hfun : (fun n => min (1000 * 2 ^ (1 - 1 + n)) 10000) =
        (fun n => min (1000 * 2 ^ n) 10000) := by
      funext n; simp
    rw [hfun]
    simp
  · intro e
    cases hres : e.response with
    | none => simp [isNonRetryableError, hres]
    | some r =>
      simp only [isNonRetryableError, hres, Bool.and_eq_true, decide_eq_true_eq,
        Option.some.injEq]
      constructor
      · rintro ⟨⟨h4, h5⟩, h429⟩
        exact ⟨r, rfl, h4, h5, h429⟩
      · rintro ⟨r', hr', h4, h5, h429⟩
        subst hr'
        exact ⟨⟨h4, h5⟩, h429⟩

/-- Witness for C2: three attempts at a constant 404 error invoke `requestFn`
once with no delays; three attempts at a constant 503 error invoke it
3 times with backoff delays 1000 ms and 2000 ms. -/
theorem C2_retry_classification_witness :
    executeRequest 3 (fun _ => Attempt.err (α := Nat) ⟨some ⟨404, "Not Found", none⟩, false, "m"⟩) =
      ⟨⟨false, none, some "HTTP 404: Not Found"⟩, 1, []⟩ ∧
    executeRequest 3 (fun _ => Attempt.err (α := Nat) ⟨some ⟨503, "Service Unavailable", none⟩, false, "m"⟩) =
      ⟨⟨false, none, some "HTTP 503: Service Unavailable"⟩, 3, [1000, 2000]⟩ := by
  constructor
  · have h := (C2_retry_classification 3
      (fun _ => Attempt.err (α := Nat) ⟨some ⟨404, "Not Found", none⟩, false, "m"⟩)
      (by decide)).1 1 ⟨some ⟨404, "Not Found", none⟩, false, "m"⟩
      (le_refl 1) (by decide)
      (fun i h1 hi => absurd (Nat.lt_of_le_of_lt h1 hi) (Nat.lt_irrefl 1))
      rfl (by decide)
    exact h.trans (by decide)
  · obtain ⟨e, he, hrun⟩ := (C2_retry_classification 3
      (fun _ => Attempt.err (α := Nat) ⟨some ⟨503, "Service Unavailable", none⟩, false, "m"⟩)
      (by decide)).2.1
      (fun i _ _ => ⟨⟨some ⟨503, "Service Unavailable", none⟩, false, "m"⟩, rfl, by decide⟩)
    have he' : (⟨some ⟨503, "Service Unavailable", none⟩, false, "m"⟩ : JsError) = e := by
      injection he
    rw [← he'] at hrun
    exact hrun.trans (by decide)

/-! ## Claim C3: cache TTL semantics -/

/-- Claim C3: for every entry stored in the cache, `get(key)` returns the
stored value whenever the elapsed time since insertion satisfies
`elapsed <= ttl` (leaving the cache, hence the entry's TTL, untouched — no
sliding expiration), and once `elapsed > ttl` it physically removes the
entry (a subsequent lookup finds nothing) and returns absent. -/
theorem C3_cache_ttl {α : Type} (c : ApiCache α) (key : String) (now : Nat)
    (entry : CacheEntry α) (hfind : mapGet c.entries key = some entry) :
    (now - entry.timestamp ≤ entry.ttl →
      c.get key now = (some entry.data, c)) ∧
    (entry.ttl < now - entry.timestamp →
      c.get key now = (none, ⟨mapDelete c.entries key⟩) ∧
      mapGet (mapDelete c.entries key) key = none) := by
  constructor
  · intro hlive
    unfold ApiCache.get
    rw [hfind]
    simp [Nat.not_lt.mpr hlive]
  · intro hexp
    unfold ApiCache.get
    rw [hfind]
    simp only [if_pos hexp]
    exact ⟨trivial, mapGet_mapDelete_self _ _⟩

/-- Witness for C3: a value inserted at time 100 with TTL 50 is still served
at time 150 without touching the cache, and is evicted at time 151. -/
theorem C3_cache_ttl_witness :
    ApiCache.get (⟨[("k", ⟨5, 100, 50⟩)]⟩ : ApiCache Nat) "k" 150 =
      (some 5, ⟨[("k", ⟨5, 100, 50⟩)]⟩) ∧
    ApiCache.get (⟨[("k", ⟨5, 100, 50⟩)]⟩ : ApiCache Nat) "k" 151 = (none, ⟨[]⟩) := by
  constructor
  · exact (C3_cache_ttl ⟨[("k", ⟨5, 100, 50⟩)]⟩ "k" 150 ⟨5, 100, 50⟩ (by decide)).1
      (by decide)
  · have h := ((C3_cache_ttl (⟨[("k", ⟨5, 100, 50⟩)]⟩ : ApiCache Nat) "k" 151
      ⟨5, 100, 50⟩ (by decide)).2 (by decide)).1
    exact h.trans (by decide)

/-! ## Claim C7: configuration clamping (corrected) -/

/-- Counterexample to C7 as stated: with `maxRetries` configured to 10,
`requestTimeout` to 70000 and a backend URL ending in a slash, the
`loadConfiguration` of `vscode-extension/src/config.ts` returns them
unchanged: `maxRetries = 10 ∉ [1,5]`, `requestTimeout = 70000 ∉
[5000,60000]`, and the trailing slash is kept. -/
theorem C7_config_counterexample :
    (ConfigTs.loadConfiguration rawOutOfRange).maxRetries = 10 ∧
    ¬ (ConfigTs.loadConfiguration rawOutOfRange).maxRetries ≤ 5 ∧
    (ConfigTs.loadConfiguration rawOutOfRange).requestTimeout = 70000 ∧
    ¬ (ConfigTs.loadConfiguration rawOutOfRange).requestTimeout ≤ 60000 ∧
    (ConfigTs.loadConfiguration rawOutOfRange).backendUrl = "http://x/" := by
  refine ⟨rfl, by decide, rfl, by decide, rfl⟩

/-- Claim C7 (amended): the clamping of `maxRetries` to `[1,5]`, of
`requestTimeout` to `[5000,60000]`, and the trailing-slash stripping hold
for the second `ConfigManager.loadConfiguration` variant in the repository;
the `vscode-extension/src/config.ts` variant only falsy-defaults the raw
values. -/
theorem C7_config_clamping_amended (raw : RawConfig) :
    1 ≤ (ConfigV2.loadConfiguration raw).maxRetries ∧
    (ConfigV2.loadConfiguration raw).maxRetries ≤ 5 ∧
    5000 ≤ (ConfigV2.loadConfiguration raw).requestTimeout ∧
    (ConfigV2.loadConfiguration raw).requestTimeout ≤ 60000 ∧
    (ConfigV2.loadConfiguration raw).backendUrl =
      stripTrailingSlash (orElseStr raw.backendUrl "http://localhost:8000") := by
  refine ⟨?_, ?_, ?_, ?_, rfl⟩
  · exact le_max_left 1 _
  · exact max_le (by norm_num) (min_le_left 5 _)
  · exact le_max_left 5000 _
  · exact max_le (by norm_num) (min_le_left 60000 _)

/-! ## Claim C8: path traversal normalization (extractor modelled from spec) -/

/-- Claim C8: a tagged file path is normalized (parent-directory traversal
segments removed, made workspace-relative) before the client resolves it,
so the file targeted by `applyCodeEdits` always lies under the workspace
root; in particular `../../etc/passwd` resolves to
`<workspaceRoot>/etc/passwd`. The normalization step is the backend
extractor's, modelled from the spec. -/
theorem C8_path_traversal_contained :
    (∀ (workspaceRoot : List String) (tagged : FsPath),
      ∃ rest, editTargetOf workspaceRoot (normalizeTaggedPath tagged) =
          workspaceRoot ++ rest ∧ ".." ∉ rest) ∧
    (∀ workspaceRoot : List String,
      editTargetOf workspaceRoot (normalizeTaggedPath ⟨false, ["..", "..", "etc", "passwd"]⟩) =
        workspaceRoot ++ ["etc", "passwd"]) := by
  constructor
  · intro workspaceRoot tagged
    refine ⟨tagged.segs.filter (fun s => s ≠ ".." && s ≠ "." && s ≠ ""), ?_, ?_⟩
    · show (if false = true then _ else resolveSegs workspaceRoot _) = _
      rw [if_neg (by simp)]
      exact resolveSegs_clean _ workspaceRoot (by
        intro s hs
        have := List.of_mem_filter hs
        simp only [Bool.and_eq_true, bne_iff_ne, ne_eq, decide_eq_true_eq] at this
        exact ⟨this.1.1, this.1.2, this.2⟩)
    · intro hmem
      have := List.of_mem_filter hmem
      simp at this
  · intro workspaceRoot
    show (if false = true then _ else resolveSegs workspaceRoot _) = _
    rw [if_neg (by simp)]
    exact resolveSegs_clean _ workspaceRoot (by decide)

/-! ## Claim C9: reindex threshold -/

theorem watchRun_file_events (p : String) (hp : isCodeFile p = true) :
    ∀ (n : Nat) (s : WatchState), 0 < n →
      watchRun s (List.replicate n (.file p)) =
        { s with changeCount := s.changeCount + n, timerPending := true } := by
  intro n
  induction n with
  | zero => intro s h; omega
  | succ m ih =>
    intro s _
    rw [List.replicate_succ, watchRun, List.foldl_cons]
    show watchRun (watchStep s (.file p)) (List.replicate m (.file p)) = _
    rw [watchStep, if_pos hp]
    match m, ih with
    | 0, _ => simp [watchRun]
    | m' + 1, ih =>
      rw [ih _ (Nat.succ_pos m')]
      have harith : s.changeCount + 1 + (m' + 1) = s.changeCount + (m' + 1 + 1) := by omega
      simp [harith]

/-- Claim C9: starting idle, `n` qualifying file-change events followed by the
5-second debounce expiry issue a reindex call exactly when `n` reached the
threshold (5) — in particular 4 events issue none — and `changeCount` is
reset to 0 exactly when the reindex is triggered. -/
theorem C9_reindex_threshold (n : Nat) (p : String) (hp : isCodeFile p = true) :
    (watchRun watchInit (List.replicate n (.file p) ++ [.timerFire])).reindexCalls =
      (if maxChangesBeforeReindex ≤ n then 1 else 0) ∧
    (watchRun watchInit (List.replicate n (.file p) ++ [.timerFire])).changeCount =
      (if maxChangesBeforeReindex ≤ n then 0 else n) := by
  rw [watchRun, List.foldl_append]
  match n with
  | 0 => exact ⟨rfl, rfl⟩
  | m + 1 =>
    rw [show List.foldl watchStep watchInit (List.replicate (m + 1) (.file p)) =
        watchRun watchInit (List.replicate (m + 1) (.file p)) from rfl]
    rw [watchRun_file_events p hp (m + 1) watchInit (Nat.succ_pos m)]
    by_cases h5 : maxChangesBeforeReindex ≤ m + 1
    · rw [if_pos h5, if_pos h5]
      have h5' : 5 ≤ m + 1 := h5
      simp [watchStep, watchInit, maxChangesBeforeReindex, h5']
    · rw [if_neg h5, if_neg h5]
      have h5' : ¬ 5 ≤ m + 1 := h5
      simp [watchStep, watchInit, maxChangesBeforeReindex, h5']

/-- Witness for C9: with the qualifying path `a.ts`, 4 events then quiescence
issue no reindex and keep the count at 4; 5 events then quiescence issue
exactly one reindex and reset the count. -/
theorem C9_reindex_threshold_witness :
    (watchRun watchInit (List.replicate 4 (.file "a.ts") ++ [.timerFire])).reindexCalls = 0 ∧
    (watchRun watchInit (List.replicate 4 (.file "a.ts") ++ [.timerFire])).changeCount = 4 ∧
    (watchRun watchInit (List.replicate 5 (.file "a.ts") ++ [.timerFire])).reindexCalls = 1 ∧
    (watchRun watchInit (List.replicate 5 (.file "a.ts") ++ [.timerFire])).changeCount = 0 := by
  have h4 := C9_reindex_threshold 4 "a.ts" (by decide)
  have h5 := C9_reindex_threshold 5 "a.ts" (by decide)
  exact ⟨h4.1.trans (by decide), h4.2.trans (by decide),
    h5.1.trans (by decide), h5.2.trans (by decide)⟩

/-! ## Claim C10: applyBugFix guard -/

/-- Claim C10: `applyBugFix` replaces the selection with the fixed code only
when the selected text is character-for-character equal to the original
code captured when the fix was requested (the replacement splices
`fixedCode` exactly between the text before and after the selection); when
the selection differs, the editor is left entirely unchanged and only a
warning is shown. -/
theorem C10_apply_bug_fix_guard (e : Editor) (originalCode fixedCode : List Char) :
    (e.selectedText = originalCode →
      applyBugFix (some e) originalCode fixedCode =
        (some { e with doc := e.doc.take e.selStart ++ fixedCode ++ e.doc.drop e.selEnd },
          .info "Bug fix applied successfully!")) ∧
    (e.selectedText ≠ originalCode →
      applyBugFix (some e) originalCode fixedCode =
        (some e, .warning "Selected code has changed. Please reselect and try again.")) := by
  constructor
  · intro h
    simp [applyBugFix, h]
  · intro h
    simp [applyBugFix, h]

/-- Witness for C10: with document `abcdef`, selection `cd` (offsets 2–4) and
original code `cd`, the fix `XY` is spliced in; with original code `zz` the
document is untouched and a warning is shown. -/
theorem C10_apply_bug_fix_witness :
    applyBugFix (some ⟨"abcdef".toList, 2, 4⟩) "cd".toList "XY".toList =
      (some ⟨"abXYef".toList, 2, 4⟩, .info "Bug fix applied successfully!") ∧
    applyBugFix (some ⟨"abcdef".toList, 2, 4⟩) "zz".toList "XY".toList =
      (some ⟨"abcdef".toList, 2, 4⟩,
        .warning "Selected code has changed. Please reselect and try again.") := by
  constructor
  · exact ((C10_apply_bug_fix_guard ⟨"abcdef".toList, 2, 4⟩ "cd".toList "XY".toList).1
      (by decide)).trans (by decide)
  · exact ((C10_apply_bug_fix_guard ⟨"abcdef".toList, 2, 4⟩ "zz".toList "XY".toList).2
      (by decide)).trans (by decide)

/-! ## Claim C1: request coalescing (code bug) -/

/-- Claim C1 fails on the code: `makeRequest` checks the `requestQueue`
before `await this.configManager.checkBackendConnection()` but registers
the in-flight entry only after that await, so two calls with the same
operation and cache key issued in the same tick both pass the
deduplication check and both launch their own `executeRequest` attempt
sequence. On the schedule that runs each call's synchronous prefix first
(exactly what `Promise.all` of two identical calls does), two network
attempt sequences start and the two callers can receive different
outcomes. -/
theorem C1_coalescing_race :
    raceA.operation = raceB.operation ∧ raceA.cacheKey = raceB.cacheKey ∧
    (orchRun [raceA, raceB] "http://localhost:8000" 0 [0, 1, 0, 1, 0, 1]).execStarts = 2 ∧
    (orchRun [raceA, raceB] "http://localhost:8000" 0 [0, 1, 0, 1, 0, 1]).phases =
      [.done ⟨true, some 7, none⟩,
        .done ⟨false, none, some "HTTP 503: Service Unavailable"⟩] := by
  decide

/-! ## Claim C5: connectivity short-circuit -/

/-- Claim C5: when the connectivity probe reports the backend unreachable,
`makeRequest` settles with `success: false` and the
`Cannot connect to Cody backend at ...` message, and `executeRequest` — and
hence `requestFn` — is never launched, consuming no retry budget. -/
theorem C5_connectivity_short_circuit {α : Type} (backendUrl : String) (now : Nat)
    (t : TaskSpec α) (hprobe : t.probeOk = false) :
    (orchRun [t] backendUrl now [0, 0]).phases =
      [.done ⟨false, none, some ("Cannot connect to Cody backend at " ++ backendUrl ++
        ". Please ensure the backend is running.")⟩] ∧
    (orchRun [t] backendUrl now [0, 0]).execStarts = 0 := by
  cases hck : t.cacheKey with
  | none =>
    simp [orchRun, orchInit, orchStep, ApiCache.empty, ApiCache.get, mapGet, hck, hprobe]
  | some ck =>
    by_cases hck0 : ck = "" <;>
      simp [orchRun, orchInit, orchStep, ApiCache.empty, ApiCache.get, mapGet, hck, hck0,
        hprobe]

/-- Witness for C5: a concrete call with a failing probe: the connectivity
error is returned and no attempt sequence starts. -/
theorem C5_connectivity_short_circuit_witness :
    (orchRun [(⟨"op", some "k", none, false, ⟨true, some 7, none⟩⟩ : TaskSpec Nat)]
        "http://localhost:8000" 0 [0, 0]).phases =
      [.done ⟨false, none, some ("Cannot connect to Cody backend at http://localhost:8000. Please ensure the backend is running.")⟩] ∧
    (orchRun [(⟨"op", some "k", none, false, ⟨true, some 7, none⟩⟩ : TaskSpec Nat)]
        "http://localhost:8000" 0 [0, 0]).execStarts = 0 := by
  have h := C5_connectivity_short_circuit "http://localhost:8000" 0
    (⟨"op", some "k", none, false, ⟨true, some 7, none⟩⟩ : TaskSpec Nat) rfl
  exact ⟨h.1.trans (by decide), h.2⟩

/-! ## Claim C6: settlement cleanup and cache population -/

/-- Claim C6: a `makeRequest` call that registers an in-flight entry removes
it from the request queue when it settles, on the success and failure
paths alike (the final queue is empty), returns its `executeRequest`
result, and populates the cache under the requested TTL (default 30
minutes) exactly when the outcome is successful and a (truthy) cache key
was supplied; with no cache key, or a falsy one, the cache stays empty. -/
theorem C6_settlement_cleanup {α : Type} (backendUrl : String) (now : Nat)
    (t : TaskSpec α) (hprobe : t.probeOk = true) :
    (orchRun [t] backendUrl now [0, 0, 0]).queue = [] ∧
    (orchRun [t] backendUrl now [0, 0, 0]).phases = [.done t.execResult] ∧
    (∀ ck, t.cacheKey = some ck → ck ≠ "" →
      mapGet (orchRun [t] backendUrl now [0, 0, 0]).cache.entries ck =
        (if t.execResult.success then
          some ⟨t.execResult, now, t.cacheTTL.getD defaultTTL⟩ else none)) ∧
    ((t.cacheKey = none ∨ t.cacheKey = some "") →
      (orchRun [t] backendUrl now [0, 0, 0]).cache.entries = []) := by
  cases hck : t.cacheKey with
  | none =>
    cases hs : t.execResult.success <;>
      simp [orchRun, orchInit, orchStep, ApiCache.empty, ApiCache.get, ApiCache.set,
        mapGet, mapSet, mapDelete, keysOf, cacheMaxSize, hck, hprobe, hs]
  | some ck =>
    by_cases hck0 : ck = "" <;> cases hs : t.execResult.success <;>
      simp [orchRun, orchInit, orchStep, ApiCache.empty, ApiCache.get, ApiCache.set,
        mapGet, mapSet, mapDelete, keysOf, cacheMaxSize, hck, hck0, hprobe, hs]

/-- Witness for C6: a successful call with cache key `k` leaves an empty
queue, reports its result, and stores it under `k` with the default TTL. -/
theorem C6_settlement_cleanup_witness :
    (orchRun [(⟨"op", some "k", none, true, ⟨true, some 7, none⟩⟩ : TaskSpec Nat)]
        "u" 42 [0, 0, 0]).queue = [] ∧
    (orchRun [(⟨"op", some "k", none, true, ⟨true, some 7, none⟩⟩ : TaskSpec Nat)]
        "u" 42 [0, 0, 0]).phases = [.done ⟨true, some 7, none⟩] ∧
    mapGet (orchRun [(⟨"op", some "k", none, true, ⟨true, some 7, none⟩⟩ : TaskSpec Nat)]
        "u" 42 [0, 0, 0]).cache.entries "k" =
      some ⟨⟨true, some 7, none⟩, 42, defaultTTL⟩ := by
  have h := C6_settlement_cleanup "u" 42
    (⟨"op", some "k", none, true, ⟨true, some 7, none⟩⟩ : TaskSpec Nat) rfl
  refine ⟨h.1, h.2.1, ?_⟩
  have h3 := h.2.2.1 "k" rfl (by decide)
  exact h3.trans (by decide)

/-! ## Claim C4: cache size bound (corrected) -/

theorem length_mapSet_le {β : Type} (m : List (String × β)) (k : String) (v : β) :
    (mapSet m k v).length ≤ m.length + 1 := by
  unfold mapSet
  split
  · simp only [List.length_map]
    exact Nat.le_succ m.length
  · simp

theorem mem_keysOf_mapSet {β : Type} (m : List (String × β)) (k : String) (v : β) :
    ∀ k' ∈ keysOf (mapSet m k v), k' ∈ keysOf m ∨ k' = k := by
  intro k' hk'
  unfold mapSet at hk'
  split at hk'
  · simp only [keysOf, List.map_map, List.mem_map, Function.comp] at hk'
    obtain ⟨p, hp, hpk⟩ := hk'
    by_cases hpe : p.1 = k
    · right
      rw [← hpk, if_pos hpe]
    · left
      rw [← hpk, if_neg hpe]
      exact List.mem_map_of_mem Prod.fst hp
  · simp only [keysOf, List.map_append, List.map_cons, List.map_nil, List.mem_append,
      List.mem_singleton] at hk'
    exact hk'

theorem keysOf_mapDelete_subset {β : Type} (m : List (String × β)) (k : String) :
    ∀ k' ∈ keysOf (mapDelete m k), k' ∈ keysOf m := by
  intro k' hk'
  simp only [keysOf, mapDelete, List.mem_map] at hk' ⊢
  obtain ⟨p, hp, rfl⟩ := hk'
  exact ⟨p, List.mem_of_mem_filter hp, rfl⟩

theorem length_mapDelete_le {β : Type} (m : List (String × β)) (k : String) :
    (mapDelete m k).length ≤ m.length :=
  List.length_filter_le _ _

theorem mapDelete_cons_self {β : Type} (p : String × β) (rest : List (String × β)) :
    mapDelete (p :: rest) p.1 = mapDelete rest p.1 := by
  simp [mapDelete, List.filter_cons]

theorem mapDelete_of_not_mem {β : Type} (m : List (String × β)) (k : String)
    (h : k ∉ keysOf m) : mapDelete m k = m := by
  apply List.filter_eq_self.mpr
  intro p hp
  simp only [ne_eq, decide_not, Bool.not_eq_eq_eq_not, Bool.not_true, decide_eq_false_iff_not]
  intro heq
  exact h (heq ▸ List.mem_map_of_mem Prod.fst hp)

theorem cacheInv_empty {α : Type} : CacheInv (ApiCache.empty : ApiCache α) :=
  ⟨by simp [ApiCache.empty, cacheMaxSize], by simp [ApiCache.empty, keysOf]⟩

theorem cacheInv_get {α : Type} (c : ApiCache α) (key : String) (now : Nat)
    (h : CacheInv c) : CacheInv ((c.get key now).2) := by
  unfold ApiCache.get
  cases hm : mapGet c.entries key with
  | none => exact h
  | some e =>
    by_cases hexp : e.ttl < now - e.timestamp
    · simp only [if_pos hexp]
      exact ⟨le_trans (length_mapDelete_le _ _) h.1,
        fun k hk => h.2 k (keysOf_mapDelete_subset _ _ k hk)⟩
    · simp only [if_neg hexp]
      exact h

theorem cacheInv_set {α : Type} (c : ApiCache α) (key : String) (d : α) (now ttl : Nat)
    (hkey : key ≠ "") (h : CacheInv c) : CacheInv (c.set key d now ttl) := by
  by_cases hlen : cacheMaxSize ≤ c.entries.length
  · cases hc : c.entries with
    | nil => rw [hc] at hlen; simp [cacheMaxSize] at hlen
    | cons p rest =>
      have hp1 : p.1 ≠ "" := h.2 p.1 (by rw [hc]; simp [keysOf])
      have hkeyhead : (keysOf c.entries).head? = some p.1 := by
        rw [hc]; rfl
      have hAE : (c.set key d now ttl).entries =
          mapSet (mapDelete c.entries p.1) key ⟨d, now, ttl⟩ := by
        simp only [ApiCache.set]
        rw [if_pos hlen, hkeyhead]
        simp only [if_neg hp1]
      have h1 := length_mapSet_le (mapDelete c.entries p.1) key
        (⟨d, now, ttl⟩ : CacheEntry α)
      have h2 : (mapDelete c.entries p.1).length ≤ rest.length := by
        rw [hc, mapDelete_cons_self]
        exact length_mapDelete_le _ _
      have h3 : c.entries.length = rest.length + 1 := by rw [hc]; rfl
      have hsz := h.1
      constructor
      · rw [hAE]; omega
      · intro k hk
        rcases mem_keysOf_mapSet _ _ _ k (hAE ▸ hk) with hmem | rfl
        · exact h.2 k (keysOf_mapDelete_subset _ _ k hmem)
        · exact hkey
  · have hAE : (c.set key d now ttl).entries = mapSet c.entries key ⟨d, now, ttl⟩ := by
      simp only [ApiCache.set]
      rw [if_neg hlen]
    have h1 := length_mapSet_le c.entries key (⟨d, now, ttl⟩ : CacheEntry α)
    constructor
    · rw [hAE]; omega
    · intro k hk
      rcases mem_keysOf_mapSet _ _ _ k (hAE ▸ hk) with hmem | rfl
      · exact h.2 k hmem
      · exact hkey

theorem cacheInv_run {α : Type} :
    ∀ (ops : List (CacheOp α)) (c : ApiCache α), CacheInv c →
      (∀ op ∈ ops, op.setKey ≠ some "") → CacheInv (runCacheOps c ops) := by
  intro ops
  induction ops with
  | nil => intro c h _; exact h
  | cons op rest ih =>
    intro c h hops
    refine ih (CacheOp.apply c op) ?_ (fun o ho => hops o (by simp [ho]))
    cases op with
    | get key now => exact cacheInv_get c key now h
    | set key d now ttl =>
      refine cacheInv_set c key d now ttl ?_ h
      have hop := hops (.set key d now ttl) (by simp)
      simpa [CacheOp.setKey] using hop
    | clear => exact cacheInv_empty

theorem mapSet_fresh {β : Type} (m : List (String × β)) (k : String) (v : β)
    (h : k ∉ keysOf m) : mapSet m k v = m ++ [(k, v)] := by
  unfold mapSet
  rw [if_neg]
  intro hany
  obtain ⟨p, hp, hpk⟩ := List.any_eq_true.mp hany
  exact h ((of_decide_eq_true hpk) ▸ List.mem_map_of_mem Prod.fst hp)

theorem set_fresh_small {α : Type} (c : ApiCache α) (k : String) (d : α) (now ttl : Nat)
    (hlen : c.entries.length < cacheMaxSize) (h : k ∉ keysOf c.entries) :
    (c.set k d now ttl).entries = c.entries ++ [(k, ⟨d, now, ttl⟩)] := by
  simp only [ApiCache.set]
  rw [if_neg (by omega), mapSet_fresh _ _ _ h]

theorem foldSet_fresh {α : Type} (d : α) (now ttl : Nat) :
    ∀ (ks : List String) (c : ApiCache α), ks.Nodup →
      (∀ k ∈ ks, k ∉ keysOf c.entries) →
      c.entries.length + ks.length ≤ cacheMaxSize →
      (ks.foldl (fun acc k => acc.set k d now ttl) c).entries =
        c.entries ++ ks.map (fun k => (k, (⟨d, now, ttl⟩ : CacheEntry α))) := by
  intro ks
  induction ks with
  | nil => intro c _ _ _; simp
  | cons k rest ih =>
    intro c hnd hfresh hlen
    rw [List.foldl_cons]
    have hlen' : c.entries.length + (rest.length + 1) ≤ cacheMaxSize := by
      simp only [List.length_cons] at hlen
      omega
    have hset := set_fresh_small c k d now ttl (by omega) (hfresh k (by simp))
    have hfresh' : ∀ k' ∈ rest, k' ∉ keysOf (c.set k d now ttl).entries := by
      intro k' hk' hmem
      rw [hset] at hmem
      simp only [keysOf, List.map_append, List.map_cons, List.map_nil, List.mem_append,
        List.mem_singleton] at hmem
      rcases hmem with hm | hm
      · exact hfresh k' (List.mem_cons_of_mem _ hk') hm
      · exact (List.nodup_cons.mp hnd).1 (hm ▸ hk')
    have hlen'' : (c.set k d now ttl).entries.length + rest.length ≤ cacheMaxSize := by
      rw [hset]
      simp only [List.length_append, List.length_cons, List.length_nil]
      omega
    rw [ih (c.set k d now ttl) (List.nodup_cons.mp hnd).2 hfresh' hlen'', hset]
    simp

theorem keysOf_pairMap {α : Type} (l : List String) (d : α) (now ttl : Nat) :
    keysOf (l.map (fun k => (k, (⟨d, now, ttl⟩ : CacheEntry α)))) = l := by
  simp only [keysOf, List.map_map]
  have hid : (Prod.fst ∘ fun k : String => (k, (⟨d, now, ttl⟩ : CacheEntry α))) = id := rfl
  rw [hid, List.map_id]

theorem set_full {α : Type} (c : ApiCache α) (k₀ : String) (v₀ : CacheEntry α)
    (rest : List (String × CacheEntry α)) (k : String) (d : α) (now ttl : Nat)
    (hc : c.entries = (k₀, v₀) :: rest)
    (hlen : cacheMaxSize ≤ c.entries.length)
    (hk₀ : k₀ ≠ "")
    (hk₀rest : k₀ ∉ keysOf rest)
    (hk : k ∉ keysOf c.entries) :
    (c.set k d now ttl).entries = rest ++ [(k, ⟨d, now, ttl⟩)] := by
  have hhead : (keysOf c.entries).head? = some k₀ := by rw [hc]; rfl
  have hdel : mapDelete c.entries k₀ = rest := by
    rw [hc]
    rw [show ((k₀, v₀) : String × CacheEntry α) :: rest = ((k₀, v₀).1, v₀) :: rest from rfl]
      at *
    rw [mapDelete_cons_self]
    exact mapDelete_of_not_mem rest k₀ hk₀rest
  have hkrest : k ∉ keysOf rest := by
    intro hmem
    exact hk (by rw [hc]; simp only [keysOf, List.map_cons, List.mem_cons]; right; exact hmem)
  simp only [ApiCache.set]
  rw [if_pos hlen, hhead]
  simp only [if_neg hk₀]
  rw [hdel, mapSet_fresh rest k _ hkrest]

set_option maxRecDepth 100000 in
/-- Counterexample to C4 as stated: the eviction guard `if (firstKey)` is a
JS truthiness test, so when the oldest key is the empty string no entry is
evicted: 101 `set` operations with distinct keys (the first being `""`)
leave 101 entries — the size bound `size <= 100` is violated and the
first-inserted key is still present. -/
theorem C4_cache_bound_counterexample :
    (runCacheOps ApiCache.empty overflowOps).entries.length = cacheMaxSize + 1 ∧
    mapGet (runCacheOps ApiCache.empty overflowOps).entries "" = some ⟨0, 0, 1000⟩ := by
  decide

/-- Claim C4 (amended): provided the empty-string key is never used (true of
every key the client produces, since cache keys are `JSON.stringify`
serializations), the cache size never exceeds `maxSize = 100` after any
sequence of `get`/`set`/`clear` operations from empty, and inserting
`maxSize + 1` distinct keys leaves exactly `maxSize` entries with the
first-inserted key absent. -/
theorem C4_cache_bound_amended {α : Type} :
    (∀ ops : List (CacheOp α), (∀ op ∈ ops, op.setKey ≠ some "") →
      (runCacheOps ApiCache.empty ops).entries.length ≤ cacheMaxSize) ∧
    (∀ (k₀ : String) (rest : List String) (d : α) (now ttl : Nat),
      rest.length = cacheMaxSize → (k₀ :: rest).Nodup → (∀ k ∈ k₀ :: rest, k ≠ "") →
      ((k₀ :: rest).foldl (fun c k => c.set k d now ttl) ApiCache.empty).entries.length =
        cacheMaxSize ∧
      mapGet ((k₀ :: rest).foldl (fun c k => c.set k d now ttl) ApiCache.empty).entries k₀ =
        none) := by
  have hcm : cacheMaxSize = 100 := rfl
  constructor
  · intro ops hops
    exact (cacheInv_run ops ApiCache.empty cacheInv_empty hops).1
  · intro k₀ rest d now ttl hlen hnd hne
    have hrest_ne : rest ≠ [] := by
      intro h0; rw [h0] at hlen; simp [cacheMaxSize] at hlen
    obtain ⟨body, klast, hbk⟩ : ∃ body klast, rest = body ++ [klast] :=
      ⟨rest.dropLast, rest.getLast hrest_ne, (List.dropLast_append_getLast hrest_ne).symm⟩
    subst hbk
    have hbody_len : body.length + 1 = cacheMaxSize := by
      simpa [List.length_append] using hlen
    have hsplit : k₀ :: (body ++ [klast]) = (k₀ :: body) ++ [klast] := rfl
    rw [hsplit, List.foldl_append, List.foldl_cons, List.foldl_nil]
    have hnd' := hsplit ▸ hnd
    have hnd1 : (k₀ :: body).Nodup := (List.nodup_append.mp hnd').1
    have hdisj := (List.nodup_append.mp hnd').2.2
    have hfold1 := foldSet_fresh d now ttl (k₀ :: body) ApiCache.empty hnd1
      (fun k _ hmem => by simp [ApiCache.empty, keysOf] at hmem)
      (by simp [ApiCache.empty]; omega)
    have hcFullEntries :
        ((k₀ :: body).foldl (fun c k => c.set k d now ttl) ApiCache.empty).entries =
          (k₀, (⟨d, now, ttl⟩ : CacheEntry α)) ::
            body.map (fun k => (k, (⟨d, now, ttl⟩ : CacheEntry α))) := by
      rw [hfold1]; simp [ApiCache.empty]
    have hkeysFull :
        keysOf ((k₀ :: body).foldl (fun c k => c.set k d now ttl) ApiCache.empty).entries =
          k₀ :: body := by
      rw [hcFullEntries]
      simp only [keysOf, List.map_cons]
      rw [show List.map Prod.fst (body.map (fun k => (k, (⟨d, now, ttl⟩ : CacheEntry α)))) =
        keysOf (body.map (fun k => (k, (⟨d, now, ttl⟩ : CacheEntry α)))) from rfl]
      rw [keysOf_pairMap]
    have hk₀body : k₀ ∉ body := (List.nodup_cons.mp hnd1).1
    have hklast : klast ∉ keysOf
        ((k₀ :: body).foldl (fun c k => c.set k d now ttl) ApiCache.empty).entries := by
      rw [hkeysFull]
      intro hmem
      exact hdisj hmem (List.mem_singleton_self klast)
    have hfinal := set_full _ k₀ ⟨d, now, ttl⟩
      (body.map (fun k => (k, (⟨d, now, ttl⟩ : CacheEntry α)))) klast d now ttl
      hcFullEntries
      (by rw [hcFullEntries]; simp only [List.length_cons, List.length_map]; omega)
      (hne k₀ (by simp))
      (by rw [keysOf_pairMap]; exact hk₀body)
      hklast
    rw [hfinal]
    constructor
    · simp only [List.length_append, List.length_map, List.length_cons, List.length_nil]
      omega
    · apply mapGet_eq_none_of_not_mem
      simp only [keysOf, List.map_append, List.map_cons, List.map_nil, List.mem_append,
        List.mem_singleton]
      rintro (hmem | rfl)
      · exact hk₀body (by
          have : List.map Prod.fst (body.map (fun k => (k, (⟨d, now, ttl⟩ : CacheEntry α)))) =
            body := keysOf_pairMap body d now ttl
          rwa [this] at hmem)
      · exact (List.nodup_cons.mp hnd1).1 (by
          have hk₀mem : k₀ ∈ k₀ :: body := by simp
          exact absurd (hdisj hk₀mem (List.mem_singleton_self k₀)) (fun h => h)) |>.elim

set_option maxRecDepth 400000 in
/-- Witness for the amended C4: a short non-empty-key operation sequence
respects the bound, and 101 distinct non-empty keys (`"0"`–`"100"`) leave
exactly 100 entries with `"0"` absent. -/
theorem C4_cache_bound_amended_witness :
    (runCacheOps (ApiCache.empty (α := Nat)) demoOps).entries.length ≤ cacheMaxSize ∧
    (("0" :: demoRest).foldl (fun c k => c.set k (5 : Nat) 0 1000)
        ApiCache.empty).entries.length = cacheMaxSize ∧
    mapGet (("0" :: demoRest).foldl (fun c k => c.set k (5 : Nat) 0 1000)
        ApiCache.empty).entries "0" = none := by
  refine ⟨C4_cache_bound_amended.1 demoOps (by decide), ?_, ?_⟩
  · exact (C4_cache_bound_amended.2 "0" demoRest 5 0 1000 (by decide) (by decide)
      (by decide)).1
  · exact (C4_cache_bound_amended.2 "0" demoRest 5 0 1000 (by decide) (by decide)
      (by decide)).2

end Cody
